import Mathlib

/-!
Verification of the anvil region-based memory-allocator library.

The definitions below are a shallow embedding of the C/C++ sources:
machine integers (`size_t`, `uintptr_t`) are modelled as `Nat` with an
explicit `% 2^64` wherever the source arithmetic can wrap, byte memory is
a function from addresses to byte values, allocator structs become Lean
structures, fallible operations return `Option` (with `none` standing for
a fatal invariant abort), and recoverable errors are the packed 16-bit
codes of the source's error model.
-/

namespace Anvil

/-- Machine word modulus: size_t and uintptr_t are 64 bits wide. -/
def U64 : Nat := 2 ^ 64

/-- Constant from memory/constants.hpp: alignment is capped at half a page. -/
def MAX_ALIGNMENT : Nat := 1 <<< 11

/-- Constant from memory/constants.hpp. -/
def MIN_ALIGNMENT : Nat := 1

/-- Constant from memory/constants.hpp. -/
def MAX_STACK_DEPTH : Nat := 64

/-- Transfer-protocol magic word on 64-bit targets (memory/constants). -/
def TRANSFER_MAGIC : Nat := 0xFFFFFFFFDEADC0DE

/-- Allocation mode flag EAGER = 1 << 0 (memory/constants). -/
def EAGER : Nat := 1

/-- Allocation mode flag LAZY = 1 << 1 (memory/constants). -/
def LAZY : Nat := 2

/-- Packed 16-bit error value, as in the source's error model. -/
abbrev Error := Nat

/-- Error constructor from anvil::error: (domain << 12) | (code << 4) | severity. -/
def make_error (domain severity code : Nat) : Error :=
  (domain <<< 12) ||| (code <<< 4) ||| severity

/-- Success is the reserved zero value. -/
def ERR_SUCCESS : Error := 0

/-- Recoverable out-of-memory error (Domain::Memory, Severity::Failure, 0x10). -/
def ERR_OUT_OF_MEMORY : Error := make_error 1 2 0x10

/-- Recoverable permission-change error (Domain::Memory, Severity::Failure, 0x20). -/
def ERR_MEMORY_PERMISSION_CHANGE : Error := make_error 1 2 0x20

/-- Recoverable deallocation error (Domain::Memory, Severity::Failure, 0x30). -/
def ERR_MEMORY_DEALLOCATION : Error := make_error 1 2 0x30

/-- Recoverable stack-overflow error (Domain::Memory, Severity::Failure, 0x40). -/
def ERR_STACK_OVERFLOW : Error := make_error 1 2 0x40

/-- Utility is_power_of_two: x != 0 && ((x & (x - 1)) == 0). -/
def is_power_of_two (x : Nat) : Bool :=
  x != 0 && (x &&& (x - 1)) == 0

/-- Wrapping 64-bit addition (size_t / uintptr_t addition in the source). -/
def uadd (x y : Nat) : Nat := (x + y) % U64

/-- Wrapping 64-bit subtraction (size_t / uintptr_t subtraction in the source). -/
def usub (x y : Nat) : Nat := (x + (U64 - y % U64)) % U64

/-- The source's alignment idiom `(addr + (align - 1)) & ~(align - 1)`:
for an alignment `a` with `1 ≤ a ≤ 2^64`, the 64-bit value of `~(a - 1)`
is `2^64 - a`. -/
def alignUp (addr a : Nat) : Nat :=
  uadd addr (a - 1) &&& (U64 - a)

/-- Mathematical round-up to a multiple, used to state what `alignUp` computes. -/
def roundUp (x a : Nat) : Nat := (x + a - 1) / a * a

/-! Arithmetic lemmas about the alignment mask. -/

theorem U64_pos : 0 < U64 := by decide

theorem and_two_pow_high (x k n : Nat) (hk : k ≤ n) (hx : x < 2 ^ n) :
    x &&& (2 ^ n - 2 ^ k) = x / 2 ^ k * 2 ^ k := by
  have hrhs : x / 2 ^ k * 2 ^ k = (x >>> k) <<< k := by
    rw [Nat.shiftLeft_eq, Nat.shiftRight_eq_div_pow]
  have hmask : 2 ^ n - 2 ^ k = 2 ^ k * (2 ^ (n - k) - 1) := by
    rw [Nat.mul_sub, Nat.mul_one, ← Nat.pow_add]
    congr 2
    omega
  apply Nat.eq_of_testBit_eq
  intro i
  rw [Nat.testBit_and, hrhs, hmask, Nat.testBit_mul_pow_two,
    Nat.testBit_shiftLeft, Nat.testBit_shiftRight]
  by_cases hik : k ≤ i
  · have h1 : i ≥ k := hik
    by_cases hin : i < n
    · have h2 : i - k < n - k := by omega
      have h3 : k + (i - k) = i := by omega
      simp [h1, h2, h3, Nat.testBit_two_pow_sub_one]
    · have h2 : ¬ (i - k < n - k) := by omega
      have hxi : x.testBit i = false := by
        apply Nat.testBit_lt_two_pow
        calc x < 2 ^ n := hx
          _ ≤ 2 ^ i := Nat.pow_le_pow_right (by omega) (by omega)
      simp [h1, h2, hxi, Nat.testBit_two_pow_sub_one]
  · simp [hik, Nat.testBit_two_pow_sub_one]

theorem U64_eq : U64 = 18446744073709551616 := rfl

theorem alignUp_eq_roundUp (addr k : Nat) (hk : k ≤ 64)
    (h : addr + 2 ^ k ≤ U64) : alignUp addr (2 ^ k) = roundUp addr (2 ^ k) := by
  have hU := U64_eq
  have hpos : 0 < 2 ^ k := Nat.two_pow_pos k
  have hlt : addr + (2 ^ k - 1) < 2 ^ 64 := by omega
  have hlt' : addr + (2 ^ k - 1) < 18446744073709551616 := by omega
  have huadd : uadd addr (2 ^ k - 1) = addr + (2 ^ k - 1) := by
    show _ % U64 = _
    rw [U64_eq]
    exact Nat.mod_eq_of_lt hlt'
  have hmask : U64 - 2 ^ k = 2 ^ 64 - 2 ^ k := rfl
  have heq : addr + (2 ^ k - 1) = addr + 2 ^ k - 1 := by omega
  unfold alignUp roundUp
  rw [huadd, hmask, and_two_pow_high _ k 64 hk hlt, heq]

theorem roundUp_ge (x a : Nat) (ha : 0 < a) : x ≤ roundUp x a := by
  unfold roundUp
  rw [Nat.mul_comm]
  have h1 := Nat.div_add_mod (x + a - 1) a
  have h2 : (x + a - 1) % a < a := Nat.mod_lt _ ha
  omega

theorem roundUp_lt_add (x a : Nat) (ha : 0 < a) : roundUp x a < x + a := by
  unfold roundUp
  rw [Nat.mul_comm]
  have h1 := Nat.div_add_mod (x + a - 1) a
  have h2 : (x + a - 1) % a < a := Nat.mod_lt _ ha
  omega

theorem roundUp_mod (x a : Nat) : roundUp x a % a = 0 := by
  unfold roundUp
  exact Nat.mul_mod_left _ _

theorem usub_eq_sub {x y : Nat} (hyx : y ≤ x) (hx : x < U64) :
    usub x y = x - y := by
  unfold usub
  rw [U64_eq] at hx ⊢
  have hy : y % 18446744073709551616 = y := Nat.mod_eq_of_lt (by omega)
  rw [hy]
  have h1 : x + (18446744073709551616 - y) = 18446744073709551616 + (x - y) := by
    omega
  rw [h1, Nat.add_mod_left]
  exact Nat.mod_eq_of_lt (by omega)

theorem uadd_eq_add {x y : Nat} (h : x + y < U64) : uadd x y = x + y :=
  Nat.mod_eq_of_lt h

theorem is_power_of_two_pow (k : Nat) : is_power_of_two (2 ^ k) = true := by
  unfold is_power_of_two
  have hne : (2 ^ k != 0) = true := by
    simp [Nat.two_pow_pos k |>.ne.symm]
  have hand : 2 ^ k &&& (2 ^ k - 1) = 0 := by
    apply Nat.eq_of_testBit_eq
    intro i
    rw [Nat.testBit_and, Nat.zero_testBit, Nat.testBit_two_pow,
      Nat.testBit_two_pow_sub_one]
    simp only [Bool.and_eq_false_iff, decide_eq_false_iff_not]
    omega
  simp [hne, hand]

/-! Backing store (memory_allocation): mapping metadata and `anvil_memory_commit`. -/

/-- Count-trailing-zeros recursion with explicit fuel; `ctzl n = ctzAux 64 n`
models `__builtin_ctzl` on the 64-bit operands it is applied to. -/
def ctzAux : Nat → Nat → Nat
  | 0, _ => 0
  | fuel + 1, n => if n % 2 == 1 then 0 else ctzAux fuel (n / 2) + 1

/-- Model of `__builtin_ctzl` for a 64-bit operand. -/
def ctzl (n : Nat) : Nat := ctzAux 64 n

theorem ctzAux_two_pow (fuel k : Nat) (h : k ≤ fuel) : ctzAux fuel (2 ^ k) = k := by
  induction fuel generalizing k with
  | zero =>
    have hk : k = 0 := by omega
    subst hk
    rfl
  | succ f ih =>
    cases k with
    | zero => simp [ctzAux]
    | succ k' =>
      have hmod : 2 ^ (k' + 1) % 2 = 0 := by
        rw [Nat.pow_succ, Nat.mul_mod_left]
      have hdiv : 2 ^ (k' + 1) / 2 = 2 ^ k' := by
        rw [Nat.pow_succ, Nat.mul_div_cancel _ (by omega)]
      simp only [ctzAux, hmod, hdiv]
      rw [if_neg (by decide), ih k' (by omega)]

theorem ctzl_two_pow (k : Nat) (h : k ≤ 64) : ctzl (2 ^ k) = k :=
  ctzAux_two_pow 64 k h

/-- Mapping metadata prepended before every user pointer by the backing
store (struct metadata_t in memory_allocation). -/
structure Metadata where
  base : Nat
  page_size : Nat
  virtual_capacity : Nat
  capacity : Nat
  page_count : Nat
deriving Repr

/-- Embedding of `anvil_memory_commit`: rounds `commit_size` up to a page
multiple, checks the reserved range, flips page permissions (the outcome of
the `mprotect` syscall is the parameter `mprotect_ok`), and advances the
committed capacity and the page count. `none` models the fatal invariant
aborts on a null pointer (not representable here) and on `commit_size = 0`. -/
def anvil_memory_commit (md : Metadata) (commit_size : Nat)
    (mprotect_ok : Bool) : Option (Metadata × Error) :=
  if commit_size = 0 then none
  else
    let ps := md.page_size
    let commit_size' := alignUp commit_size ps
    if ¬ (commit_size' ≤ usub md.virtual_capacity md.capacity) then
      some (md, ERR_OUT_OF_MEMORY)
    else if ¬ mprotect_ok then
      some (md, ERR_MEMORY_PERMISSION_CHANGE)
    else
      some ({ md with
                capacity := uadd md.capacity commit_size',
                page_count := uadd md.capacity commit_size' >>> ctzl ps },
            ERR_SUCCESS)

/-! Scratch allocator (scratch_allocator.cpp). The struct fields are `base`
(first byte of the user region), `capacity`, `allocated`, `alloc_mode`; the
byte contents of the user region are carried alongside as `mem`. -/

structure Scratch where
  base : Nat
  capacity : Nat
  allocated : Nat
  alloc_mode : Nat
  mem : Nat → Nat

/-- Sizeof the scratch allocator header (static_assert: 32 bytes). -/
def SCRATCH_HEADER : Nat := 32

/-- Sizeof the mapping metadata (static_assert: 40 bytes). -/
def METADATA_SIZE : Nat := 40

/-- Embedding of scratch `create`: the backing `anvil_memory_alloc_eager`
returns the aligned user pointer `alignUp (mmap_addr + 40) alignment` over a
fresh zero-filled anonymous mapping whose start is the parameter
`mmap_addr`; the header is placed there and `base` right after it. `none`
models both the fatal invariant aborts and the null returns of `create`. -/
def scratch_create (capacity alignment mmap_addr : Nat) : Option Scratch :=
  if capacity = 0 then none
  else if ¬ is_power_of_two alignment then none
  else if ¬ (MIN_ALIGNMENT ≤ alignment ∧ alignment ≤ MAX_ALIGNMENT) then none
  else
    let total_memory_needed := capacity + SCRATCH_HEADER + alignment - 1
    let allocator := alignUp (mmap_addr + METADATA_SIZE) alignment
    let base := allocator + SCRATCH_HEADER
    if total_memory_needed - (base - allocator) < capacity then none
    else some { base := base, capacity := capacity, allocated := 0,
                alloc_mode := EAGER, mem := fun _ => 0 }

/-- Embedding of scratch `alloc`: computes the aligned address at
`base + allocated`, the padding offset, and the total consumed bytes; fails
softly (null, state unchanged) when the total exceeds the remaining
capacity. `none` models the fatal invariant aborts on a zero size or a bad
alignment. -/
def scratch_alloc (a : Scratch) (allocation_size alignment : Nat) :
    Option (Option Nat × Scratch) :=
  if allocation_size = 0 then none
  else if ¬ is_power_of_two alignment then none
  else if ¬ (MIN_ALIGNMENT ≤ alignment ∧ alignment ≤ MAX_ALIGNMENT) then none
  else
    let current_addr := uadd a.base a.allocated
    let aligned_addr := alignUp current_addr alignment
    let offset := usub aligned_addr current_addr
    let total_allocation := uadd allocation_size offset
    if total_allocation > usub a.capacity a.allocated then
      some (none, a)
    else
      some (some aligned_addr,
            { a with allocated := uadd a.allocated total_allocation })

/-- Embedding of scratch `reset`: memsets `[base, base + allocated)` to zero
and clears the cursor. `none` models the fatal aborts on null handle/base. -/
def scratch_reset (a : Scratch) : Option (Scratch × Error) :=
  if a.base = 0 then none
  else
    some ({ a with
              mem := fun addr =>
                if a.base ≤ addr ∧ addr < a.base + a.allocated then 0
                else a.mem addr,
              allocated := 0 },
          ERR_SUCCESS)

/-! Transfer protocol (scratch_allocator.cpp / stack_allocator.cpp): the dying
allocator's first three machine words are overwritten with
`{MAGIC, data_size, alignment}` followed by the payload bytes. -/

/-- Transfer envelope: the first three machine words of the repurposed
allocator block and the payload bytes that follow them. -/
structure Envelope where
  magic : Nat
  data_size : Nat
  alignment : Nat
  payload : List Nat

/-- Embedding of `transfer(allocator, src, data_size, alignment)`: writes the
magic, the size, the alignment, and copies `data_size` bytes from `src`
(the byte list `B`). `none` models the fatal invariant aborts
(null arguments, `data_size` out of `[1, capacity]`, non-power-of-two
alignment). -/
def scratch_transfer (P : Scratch) (B : List Nat) (data_size alignment : Nat) :
    Option Envelope :=
  if ¬ (1 ≤ data_size ∧ data_size ≤ P.capacity) then none
  else if ¬ is_power_of_two alignment then none
  else
    some { magic := TRANSFER_MAGIC, data_size := data_size,
           alignment := alignment, payload := B.take data_size }

/-- Embedding of `absorb(allocator, src, destroy_fn)`. The result tuple is
(returned pointer, consumer state, envelope state, number of `destroy_fn`
invocations). `none` models a fatal abort inside the nested `alloc` call
(possible when the envelope carries a zero size or a bad alignment). -/
def scratch_absorb (C : Scratch) (env : Envelope) :
    Option (Option Nat × Scratch × Envelope × Nat) :=
  if env.magic ≠ TRANSFER_MAGIC then some (none, C, env, 0)
  else
    match scratch_alloc C env.data_size env.alignment with
    | none => none
    | some (none, C') => some (none, C', env, 1)
    | some (some dest, C') =>
        some (some dest,
              { C' with
                  mem := fun addr =>
                    if dest ≤ addr ∧ addr < dest + env.data_size then
                      env.payload.getD (addr - dest) 0
                    else C'.mem addr },
              { env with magic := 0 },
              1)

/-- An allocator handle points at either a live scratch allocator or a
transfer envelope; the first machine word of a live allocator is its `base`
field, the first word of an envelope is its magic. -/
inductive HandleObj where
  | scratch (s : Scratch)
  | envelope (e : Envelope)

/-- First machine word at the handle's address, as read by `destroy`. -/
def firstWord : HandleObj → Nat
  | .scratch s => s.base % U64
  | .envelope e => e.magic

/-- Embedding of scratch `destroy(allocator)`: a null handle is a fatal
abort (`none`); a handle whose first word is the transfer magic yields
success without releasing or nulling; otherwise the backing mapping is
released (`anvil_memory_dealloc`, modelled as succeeding) and the handle is
nulled. -/
def scratch_destroy (h : Option HandleObj) : Option (Option HandleObj × Error) :=
  match h with
  | none => none
  | some obj =>
      if firstWord obj = TRANSFER_MAGIC then some (some obj, ERR_SUCCESS)
      else some (none, ERR_SUCCESS)

/-! Stack allocator (stack_allocator.cpp): scratch semantics plus the
fixed-depth checkpoint stack and the lazy-aware per-allocation commit.
The `stack` field models the fixed `size_t stack[MAX_STACK_DEPTH]` array;
`md` is the mapping metadata the backing store keeps before the header. -/

structure StackState where
  base : Nat
  capacity : Nat
  allocated : Nat
  alloc_mode : Nat
  stack_depth : Nat
  stack : List Nat
  md : Metadata
  mem : Nat → Nat

/-- Sizeof the stack allocator header (static_assert: 552 bytes). -/
def STACK_HEADER : Nat := 552

/-- Embedding of stack `create(capacity, alignment, alloc_mode)` over a fresh
anonymous mapping starting at `mmap_addr` with page size `page_size`: the
user pointer is `alignUp (mmap_addr + 40) alignment`, the header sits there
and `base` right after it; the mapping metadata records the page-rounded
reservation, fully committed in eager mode and one page in lazy mode.
`none` models the fatal invariant aborts and the null returns. -/
def stack_create (capacity alignment alloc_mode mmap_addr page_size : Nat) :
    Option StackState :=
  if capacity = 0 then none
  else if ¬ is_power_of_two alignment then none
  else if ¬ (MIN_ALIGNMENT ≤ alignment ∧ alignment ≤ MAX_ALIGNMENT) then none
  else if ¬ (alloc_mode = EAGER ∨ alloc_mode = LAZY) then none
  else
    let total_memory_needed := capacity + STACK_HEADER + alignment - 1
    let total_size :=
      uadd (total_memory_needed + METADATA_SIZE) (page_size - 1)
        &&& (U64 - page_size)
    let allocator := alignUp (mmap_addr + METADATA_SIZE) alignment
    let base := allocator + STACK_HEADER
    if total_memory_needed - (base - allocator) < capacity then none
    else
      some { base := base, capacity := capacity, allocated := 0,
             alloc_mode := alloc_mode, stack_depth := 0,
             stack := List.replicate MAX_STACK_DEPTH 0,
             md := { base := mmap_addr, page_size := page_size,
                     virtual_capacity := total_size,
                     capacity :=
                       if alloc_mode = EAGER then total_size else page_size,
                     page_count :=
                       (if alloc_mode = EAGER then total_size else page_size)
                         >>> ctzl page_size },
             mem := fun _ => 0 }

/-- Embedding of stack `alloc`: as scratch `alloc`, but in lazy mode the
total allocation is first committed through `anvil_memory_commit` (with the
`mprotect` syscall succeeding); a commit failure returns null with the
allocator state unchanged. -/
def stack_alloc (st : StackState) (allocation_size alignment : Nat) :
    Option (Option Nat × StackState) :=
  if allocation_size = 0 then none
  else if ¬ is_power_of_two alignment then none
  else if ¬ (MIN_ALIGNMENT ≤ alignment ∧ alignment ≤ MAX_ALIGNMENT) then none
  else
    let current_addr := uadd st.base st.allocated
    let aligned_addr := alignUp current_addr alignment
    let offset := usub aligned_addr current_addr
    let total_allocation := uadd allocation_size offset
    if total_allocation > usub st.capacity st.allocated then
      some (none, st)
    else if st.alloc_mode = LAZY then
      match anvil_memory_commit st.md total_allocation true with
      | none => none
      | some (md', e) =>
          if e ≠ ERR_SUCCESS then some (none, st)
          else
            some (some aligned_addr,
                  { st with allocated := uadd st.allocated total_allocation,
                            md := md' })
    else
      some (some aligned_addr,
            { st with allocated := uadd st.allocated total_allocation })

/-- Embedding of stack `record` (the error-returning revision): refuses with
the recoverable `ERR_STACK_OVERFLOW` when `stack_depth = MAX_STACK_DEPTH - 1`
and otherwise pushes the cursor. `none` models the fatal abort on a null
handle/base and the out-of-bounds array store that would occur at
`stack_depth ≥ MAX_STACK_DEPTH`. -/
def stack_record (st : StackState) : Option (StackState × Error) :=
  if st.base = 0 then none
  else if st.stack_depth = MAX_STACK_DEPTH - 1 then
    some (st, ERR_STACK_OVERFLOW)
  else if MAX_STACK_DEPTH ≤ st.stack_depth then none
  else
    some ({ st with stack := st.stack.set st.stack_depth st.allocated,
                    stack_depth := st.stack_depth + 1 },
          ERR_SUCCESS)

/-- Embedding of stack `unwind`: pops the top checkpoint into the cursor.
`none` models the fatal invariant aborts: `stack_depth = 0` (empty stack)
and the range invariant `1 ≤ stack_depth ≤ MAX_STACK_DEPTH - 1`. -/
def stack_unwind (st : StackState) : Option (StackState × Error) :=
  if st.stack_depth = 0 then none
  else if ¬ (1 ≤ st.stack_depth ∧ st.stack_depth ≤ MAX_STACK_DEPTH - 1) then
    none
  else
    some ({ st with allocated := st.stack.getD (st.stack_depth - 1) 0,
                    stack_depth := st.stack_depth - 1 },
          ERR_SUCCESS)

/-- Embedding of stack `reset` (the C++ revision cited by the claims, in
which the `memset` call is commented out): clears the cursor and the
checkpoint stack, leaving the bytes of the user region untouched. -/
def stack_reset (st : StackState) : Option (StackState × Error) :=
  if st.base = 0 then none
  else some ({ st with allocated := 0, stack_depth := 0 }, ERR_SUCCESS)

/-! Pool allocator construction (pool_allocator.cpp). -/

structure PoolAllocator where
  base : Nat
  capacity : Nat
  size : Nat
  ring_buffer : List Nat
  head : Nat
  tail : Nat
deriving Repr

/-- Sizeof struct pool_allocator_t (seven 8-byte fields). -/
def POOL_HEADER : Nat := 56

/-- Embedding of pool `create(object_size, object_count, alignment)`: the
slot region starts right after the header at the aligned user pointer; the
ring buffer of `object_count + 1` pointers is carved out of a fresh nested
scratch allocator (zero-filled mapping, hence the `replicate 0` initial
contents) and the loop fills its first `object_count` entries with the slot
addresses; `head = tail = 0` and `size = object_count`. `none` models the
fatal invariant aborts and the null returns. -/
def pool_create (object_size object_count alignment mmap_addr : Nat) :
    Option PoolAllocator :=
  if object_size = 0 then none
  else if object_count = 0 then none
  else if ¬ (MIN_ALIGNMENT ≤ alignment ∧ alignment ≤ MAX_ALIGNMENT) then none
  else if ¬ is_power_of_two alignment then none
  else
    let total_memory_needed :=
      object_count * object_size + POOL_HEADER + alignment - 1
    let allocator := alignUp (mmap_addr + METADATA_SIZE) alignment
    let base := allocator + POOL_HEADER
    if total_memory_needed - (base - allocator) < object_count * object_size then
      none
    else
      let ring0 := List.replicate (object_count + 1) 0
      let ring := (List.range object_count).foldl
        (fun rb i => rb.set i (base + object_size * i)) ring0
      some { base := base, capacity := object_count, size := object_count,
             ring_buffer := ring, head := 0, tail := 0 }

/-! User writes and reachable allocator states. A client may store a byte
through any pointer the allocator has issued, i.e. anywhere in
`[base, base + allocated)`. -/

/-- Store one byte at an address. -/
def writeByte (m : Nat → Nat) (addr v : Nat) : Nat → Nat :=
  fun x => if x = addr then v else m x

/-- States of a scratch allocator reachable through its public operations
(create with machine-word-sized capacity, alloc, reset) and client stores
through issued pointers. -/
inductive ScratchReach : Scratch → Prop where
  | created {capacity alignment mmap_addr : Nat} {s : Scratch} :
      capacity < U64 → scratch_create capacity alignment mmap_addr = some s →
      ScratchReach s
  | alloced {s : Scratch} {sz al : Nat} {r : Option Nat} {s' : Scratch} :
      ScratchReach s → scratch_alloc s sz al = some (r, s') → ScratchReach s'
  | reseted {s s' : Scratch} {e : Error} :
      ScratchReach s → scratch_reset s = some (s', e) → ScratchReach s'
  | written {s : Scratch} {addr v : Nat} :
      ScratchReach s → s.base ≤ addr → addr < s.base + s.allocated →
      ScratchReach { s with mem := writeByte s.mem addr v }

/-- States of a stack allocator reachable through its public operations and
client stores through issued pointers. -/
inductive StackReach : StackState → Prop where
  | created {capacity alignment alloc_mode mmap_addr page_size : Nat}
      {st : StackState} :
      capacity < U64 →
      stack_create capacity alignment alloc_mode mmap_addr page_size = some st →
      StackReach st
  | alloced {st : StackState} {sz al : Nat} {r : Option Nat} {st' : StackState} :
      StackReach st → stack_alloc st sz al = some (r, st') → StackReach st'
  | recorded {st st' : StackState} {e : Error} :
      StackReach st → stack_record st = some (st', e) → StackReach st'
  | unwound {st st' : StackState} {e : Error} :
      StackReach st → stack_unwind st = some (st', e) → StackReach st'
  | reseted {st st' : StackState} {e : Error} :
      StackReach st → stack_reset st = some (st', e) → StackReach st'
  | written {st : StackState} {addr v : Nat} :
      StackReach st → st.base ≤ addr → addr < st.base + st.allocated →
      StackReach { st with mem := writeByte st.mem addr v }

/-! Well-nested record/unwind programs over a stack allocator (for the LIFO
checkpoint property): a program is a sequence of `alloc` calls and of
`scope`s, where a `scope` is a `record`, a well-nested body, and the
matching `unwind`. `execP` runs a program, threading the allocator state;
the boolean records whether every `record` in the run returned success
(i.e. whether every `unwind` really had a matching successful `record`). -/

inductive SProg where
  | nil : SProg
  | opAlloc (allocation_size alignment : Nat) (rest : SProg) : SProg
  | scope (inner rest : SProg) : SProg

def execP : SProg → StackState → Option (StackState × Bool)
  | .nil, st => some (st, true)
  | .opAlloc sz al rest, st =>
      match stack_alloc st sz al with
      | none => none
      | some (_, st') => execP rest st'
  | .scope inner rest, st =>
      match stack_record st with
      | none => none
      | some (st1, e1) =>
        match execP inner st1 with
        | none => none
        | some (st2, ok2) =>
          match stack_unwind st2 with
          | none => none
          | some (st3, _) =>
            match execP rest st3 with
            | none => none
            | some (st4, ok4) => some (st4, (e1 == ERR_SUCCESS) && ok2 && ok4)

/-! Helper lemmas on list update/lookup. -/

theorem getD_set_eq {l : List Nat} {i : Nat} (h : i < l.length) (v : Nat) :
    (l.set i v).getD i 0 = v := by
  rw [List.getD_eq_getElem?_getD, List.getElem?_set_self h]
  rfl

theorem getD_set_ne {l : List Nat} {i j : Nat} (h : i ≠ j) (v : Nat) :
    (l.set i v).getD j 0 = l.getD j 0 := by
  rw [List.getD_eq_getElem?_getD, List.getElem?_set_ne h,
    ← List.getD_eq_getElem?_getD]

/-! Invariants maintained by the reachable states. -/

/-- Struct invariant of the scratch allocator together with the zero-fill
property of the bytes above the cursor (fresh anonymous mappings read as
zero, `reset` re-zeroes what was used). -/
def ScratchInv (s : Scratch) : Prop :=
  s.base ≠ 0 ∧ s.allocated ≤ s.capacity ∧ s.capacity < U64 ∧
  ∀ i, s.allocated ≤ i → i < s.capacity → s.mem (s.base + i) = 0

theorem scratch_create_inv {capacity alignment mmap_addr : Nat} {s : Scratch}
    (hcap : capacity < U64)
    (h : scratch_create capacity alignment mmap_addr = some s) : ScratchInv s := by
  simp only [scratch_create] at h
  split at h
  · exact absurd h (by simp)
  split at h
  · exact absurd h (by simp)
  split at h
  · exact absurd h (by simp)
  split at h
  · exact absurd h (by simp)
  simp only [Option.some.injEq] at h
  subst h
  refine ⟨?_, ?_, hcap, ?_⟩
  · simp [SCRATCH_HEADER]
  · simp
  · intro i _ _
    rfl

theorem scratch_alloc_inv {s : Scratch} {sz al : Nat} {r : Option Nat}
    {s' : Scratch} (hinv : ScratchInv s)
    (h : scratch_alloc s sz al = some (r, s')) : ScratchInv s' := by
  obtain ⟨ih1, ih2, ih3, ih4⟩ := hinv
  simp only [scratch_alloc] at h
  split at h
  · exact absurd h (by simp)
  split at h
  · exact absurd h (by simp)
  split at h
  · exact absurd h (by simp)
  split at h
  · simp only [Option.some.injEq, Prod.mk.injEq] at h
    obtain ⟨-, hs⟩ := h
    subst hs
    exact ⟨ih1, ih2, ih3, ih4⟩
  · rename_i hguard
    rw [usub_eq_sub ih2 ih3, Nat.not_lt] at hguard
    simp only [Option.some.injEq, Prod.mk.injEq] at h
    obtain ⟨-, hs⟩ := h
    subst hs
    have hadd :
        uadd s.allocated
          (uadd sz (usub (alignUp (uadd s.base s.allocated) al)
            (uadd s.base s.allocated))) =
        s.allocated +
          uadd sz (usub (alignUp (uadd s.base s.allocated) al)
            (uadd s.base s.allocated)) :=
      uadd_eq_add (by omega)
    refine ⟨ih1, ?_, ih3, ?_⟩
    · dsimp only
      rw [hadd]
      omega
    · intro i hi1 hi2
      dsimp only at hi1 hi2 ⊢
      rw [hadd] at hi1
      exact ih4 i (by omega) hi2

theorem scratch_reset_inv {s s' : Scratch} {e : Error} (hinv : ScratchInv s)
    (h : scratch_reset s = some (s', e)) : ScratchInv s' := by
  obtain ⟨ih1, ih2, ih3, ih4⟩ := hinv
  simp only [scratch_reset] at h
  split at h
  · exact absurd h (by simp)
  simp only [Option.some.injEq, Prod.mk.injEq] at h
  obtain ⟨hs, -⟩ := h
  subst hs
  refine ⟨ih1, by simp, ih3, ?_⟩
  intro i _ hi2
  dsimp only
  by_cases hlt : i < s.allocated
  · rw [if_pos (by omega)]
  · rw [if_neg (by omega)]
    exact ih4 i (by omega) hi2

theorem scratch_write_inv {s : Scratch} {addr v : Nat} (hinv : ScratchInv s)
    (hlo : s.base ≤ addr) (hhi : addr < s.base + s.allocated) :
    ScratchInv { s with mem := writeByte s.mem addr v } := by
  obtain ⟨ih1, ih2, ih3, ih4⟩ := hinv
  refine ⟨ih1, ih2, ih3, ?_⟩
  intro i hi1 hi2
  dsimp only at hi1 hi2 ⊢
  simp only [writeByte]
  rw [if_neg (by omega)]
  exact ih4 i hi1 hi2

theorem scratch_reach_inv {s : Scratch} (h : ScratchReach s) : ScratchInv s := by
  induction h with
  | created hcap hc => exact scratch_create_inv hcap hc
  | alloced hreach halloc ih => exact scratch_alloc_inv ih halloc
  | reseted hreach hres ih => exact scratch_reset_inv ih hres
  | written hreach hlo hhi ih => exact scratch_write_inv ih hlo hhi

/-- Struct invariant of the stack allocator: with the error-returning
`record`, the checkpoint depth of every reachable state stays at most
`MAX_STACK_DEPTH - 1`. -/
def StackInv (st : StackState) : Prop :=
  st.stack_depth ≤ MAX_STACK_DEPTH - 1 ∧
  st.stack.length = MAX_STACK_DEPTH ∧ st.base ≠ 0

theorem stack_create_inv {capacity alignment alloc_mode mmap_addr page_size : Nat}
    {st : StackState}
    (h : stack_create capacity alignment alloc_mode mmap_addr page_size = some st) :
    StackInv st := by
  simp only [stack_create] at h
  split at h
  · exact absurd h (by simp)
  split at h
  · exact absurd h (by simp)
  split at h
  · exact absurd h (by simp)
  split at h
  · exact absurd h (by simp)
  split at h
  · exact absurd h (by simp)
  simp only [Option.some.injEq] at h
  subst h
  refine ⟨by simp [MAX_STACK_DEPTH], by simp [MAX_STACK_DEPTH], by simp [STACK_HEADER]⟩

theorem stack_alloc_frame {st : StackState} {sz al : Nat} {r : Option Nat}
    {st' : StackState} (h : stack_alloc st sz al = some (r, st')) :
    st'.stack_depth = st.stack_depth ∧ st'.stack = st.stack ∧
    st'.base = st.base ∧ st'.capacity = st.capacity := by
  simp only [stack_alloc] at h
  split at h
  · exact absurd h (by simp)
  split at h
  · exact absurd h (by simp)
  split at h
  · exact absurd h (by simp)
  split at h
  · simp only [Option.some.injEq, Prod.mk.injEq] at h
    obtain ⟨-, hs⟩ := h
    subst hs
    exact ⟨rfl, rfl, rfl, rfl⟩
  split at h
  · split at h
    · exact absurd h (by simp)
    · split at h
      · simp only [Option.some.injEq, Prod.mk.injEq] at h
        obtain ⟨-, hs⟩ := h
        subst hs
        exact ⟨rfl, rfl, rfl, rfl⟩
      · simp only [Option.some.injEq, Prod.mk.injEq] at h
        obtain ⟨-, hs⟩ := h
        subst hs
        exact ⟨rfl, rfl, rfl, rfl⟩
  · simp only [Option.some.injEq, Prod.mk.injEq] at h
    obtain ⟨-, hs⟩ := h
    subst hs
    exact ⟨rfl, rfl, rfl, rfl⟩

theorem stack_record_inv {st st' : StackState} {e : Error} (hinv : StackInv st)
    (h : stack_record st = some (st', e)) : StackInv st' := by
  obtain ⟨ih1, ih2, ih3⟩ := hinv
  simp only [stack_record] at h
  split at h
  · exact absurd h (by simp)
  split at h
  · simp only [Option.some.injEq, Prod.mk.injEq] at h
    obtain ⟨hs, -⟩ := h
    subst hs
    exact ⟨ih1, ih2, ih3⟩
  split at h
  · exact absurd h (by simp)
  · rename_i hne hge
    simp only [Option.some.injEq, Prod.mk.injEq] at h
    obtain ⟨hs, -⟩ := h
    subst hs
    have hM : MAX_STACK_DEPTH = 64 := rfl
    refine ⟨by dsimp only; omega, by simpa using ih2, ih3⟩

theorem stack_unwind_inv {st st' : StackState} {e : Error} (hinv : StackInv st)
    (h : stack_unwind st = some (st', e)) : StackInv st' := by
  obtain ⟨ih1, ih2, ih3⟩ := hinv
  simp only [stack_unwind] at h
  split at h
  · exact absurd h (by simp)
  split at h
  · exact absurd h (by simp)
  simp only [Option.some.injEq, Prod.mk.injEq] at h
  obtain ⟨hs, -⟩ := h
  subst hs
  exact ⟨by dsimp only; omega, ih2, ih3⟩

theorem stack_reset_inv {st st' : StackState} {e : Error} (hinv : StackInv st)
    (h : stack_reset st = some (st', e)) : StackInv st' := by
  obtain ⟨ih1, ih2, ih3⟩ := hinv
  simp only [stack_reset] at h
  split at h
  · exact absurd h (by simp)
  simp only [Option.some.injEq, Prod.mk.injEq] at h
  obtain ⟨hs, -⟩ := h
  subst hs
  exact ⟨by dsimp only; omega, ih2, ih3⟩

theorem stack_reach_inv {st : StackState} (h : StackReach st) : StackInv st := by
  induction h with
  | created hcap hc => exact stack_create_inv hc
  | alloced hreach halloc ih =>
    obtain ⟨f1, f2, f3, f4⟩ := stack_alloc_frame halloc
    obtain ⟨ih1, ih2, ih3⟩ := ih
    exact ⟨f1 ▸ ih1, by rw [f2]; exact ih2, f3 ▸ ih3⟩
  | recorded hreach hrec ih => exact stack_record_inv ih hrec
  | unwound hreach hun ih => exact stack_unwind_inv ih hun
  | reseted hreach hres ih => exact stack_reset_inv ih hres
  | written hreach hlo hhi ih =>
    obtain ⟨ih1, ih2, ih3⟩ := ih
    exact ⟨ih1, ih2, ih3⟩

/-! Concrete states used by witnesses and counterexamples. -/

def junkMetadata : Metadata :=
  { base := 0, page_size := 0, virtual_capacity := 0, capacity := 0,
    page_count := 0 }

def junkScratch : Scratch :=
  { base := 0, capacity := 0, allocated := 0, alloc_mode := 0,
    mem := fun _ => 0 }

def junkStack : StackState :=
  { base := 0, capacity := 0, allocated := 0, alloc_mode := 0,
    stack_depth := 0, stack := [], md := junkMetadata, mem := fun _ => 0 }

/-- A freshly created scratch allocator: capacity 1024, alignment 16, over a
mapping at address 4096. Its user region starts at 4176. -/
def demoScratch : Scratch := (scratch_create 1024 16 4096).getD junkScratch

/-- A freshly created eager stack allocator: capacity 256, alignment 8, over
a mapping at address 4096 with 4 KiB pages. Its user region starts at 4688. -/
def demoStack : StackState :=
  (stack_create 256 8 EAGER 4096 4096).getD junkStack

/-- A freshly created lazy stack allocator: capacity 8192, alignment 1, over
a 12 KiB reservation of which one 4 KiB page is committed. -/
def demoLazy0 : StackState :=
  (stack_create 8192 1 LAZY 4096 4096).getD junkStack

example : demoScratch.base = 4176 := by decide
example : demoStack.base = 4688 := by decide
example : demoLazy0.base = 4688 := by decide
example : demoLazy0.md.virtual_capacity = 12288 := by decide
example : demoLazy0.md.capacity = 4096 := by decide

/-- The lazy stack allocator after one 1-byte allocation (one extra page
committed by the per-allocation commit). -/
def c2Lazy1 : StackState := ((stack_alloc demoLazy0 1 1).getD (none, junkStack)).snd

/-- The lazy stack allocator after two 1-byte allocations (whole reservation
now committed). -/
def c2Lazy2 : StackState := ((stack_alloc c2Lazy1 1 1).getD (none, junkStack)).snd

example : c2Lazy1.allocated = 1 := by decide
example : c2Lazy1.md.capacity = 8192 := by decide
example : c2Lazy2.allocated = 2 := by decide
example : c2Lazy2.md.capacity = 12288 := by decide
example : (stack_alloc c2Lazy2 1 1).map Prod.fst = some none := by decide

/-! Claim C7: behaviour of `anvil_memory_commit`. -/

/-- C7: commit rounds `bytes` up to a page multiple; it returns OutOfMemory
exactly when the rounded size exceeds `virtual_capacity - capacity`, returns
MemoryPermissionChange on permission failure, and on any error leaves
`capacity` and `page_count` unchanged; on success it advances `capacity` by
exactly the rounded size and maintains `page_count = capacity / page_size`. -/
theorem commit_spec (md : Metadata) (bytes k : Nat) (mp : Bool)
    (hps : md.page_size = 2 ^ k) (hk : k ≤ 64)
    (hcv : md.capacity ≤ md.virtual_capacity)
    (hv : md.virtual_capacity < U64) (hb : 0 < bytes)
    (hbp : bytes + md.page_size ≤ U64) :
    (md.virtual_capacity - md.capacity < roundUp bytes md.page_size →
      anvil_memory_commit md bytes mp = some (md, ERR_OUT_OF_MEMORY)) ∧
    (roundUp bytes md.page_size ≤ md.virtual_capacity - md.capacity →
      (mp = false →
        anvil_memory_commit md bytes mp =
          some (md, ERR_MEMORY_PERMISSION_CHANGE)) ∧
      (mp = true →
        anvil_memory_commit md bytes mp =
          some ({ md with
                    capacity := md.capacity + roundUp bytes md.page_size,
                    page_count :=
                      (md.capacity + roundUp bytes md.page_size) /
                        md.page_size },
                ERR_SUCCESS))) := by
  have hU := U64_eq
  have hpos : 0 < md.page_size := by
    rw [hps]
    exact Nat.two_pow_pos k
  have hround : alignUp bytes md.page_size = roundUp bytes md.page_size := by
    rw [hps]
    exact alignUp_eq_roundUp bytes k hk (by omega)
  have husub : usub md.virtual_capacity md.capacity =
      md.virtual_capacity - md.capacity := usub_eq_sub hcv hv
  simp only [anvil_memory_commit, if_neg (by omega : ¬ bytes = 0), hround, husub]
  constructor
  · intro hoom
    rw [if_pos (by omega)]
  · intro hfits
    constructor
    · intro hmp
      subst hmp
      rw [if_neg (by omega)]
      simp
    · intro hmp
      subst hmp
      rw [if_neg (by omega)]
      simp only [Bool.not_true, if_neg (by simp : ¬ (true = false))]
      have hclt : md.capacity + roundUp bytes md.page_size < U64 := by omega
      have hcap : uadd md.capacity (roundUp bytes md.page_size) =
          md.capacity + roundUp bytes md.page_size := uadd_eq_add hclt
      rw [hcap, hps, ctzl_two_pow k hk, Nat.shiftRight_eq_div_pow]
      simp

/-- Witness for C7: committing 1 byte to a 12 KiB lazy reservation with one
4 KiB page committed succeeds, advancing capacity by one page. -/
theorem commit_spec_witness :
    roundUp 1 4096 ≤ 12288 - 4096 ∧
    anvil_memory_commit
        { base := 4096, page_size := 4096, virtual_capacity := 12288,
          capacity := 4096, page_count := 1 } 1 true =
      some ({ base := 4096, page_size := 4096, virtual_capacity := 12288,
              capacity := 8192, page_count := 2 }, ERR_SUCCESS) :=
  ⟨by decide,
   ((commit_spec
      { base := 4096, page_size := 4096, virtual_capacity := 12288,
        capacity := 4096, page_count := 1 } 1 12 true rfl (by decide)
      (by decide) (by decide) (by decide) (by decide)).2 (by decide)).2 rfl⟩

/-! Claim C9 (corrected): `destroy` and handle nulling. -/

/-- C9 counterexample envelope: a transferred allocator block. -/
def c9Env : Envelope :=
  { magic := TRANSFER_MAGIC, data_size := 1, alignment := 1, payload := [0] }

/-- C9 counterexample: on a handle whose first word is the transfer magic,
`destroy` returns Success but does NOT null the handle, contradicting the
claim that `h = null` after every successful `destroy(&h)`. -/
theorem destroy_magic_counterexample :
    scratch_destroy (some (HandleObj.envelope c9Env)) =
      some (some (HandleObj.envelope c9Env), ERR_SUCCESS) ∧
    some (HandleObj.envelope c9Env) ≠ (none : Option HandleObj) := by
  constructor
  · rfl
  · simp

/-- C9 (amended): after `destroy(&h)` returns Success on a live allocator
(first word not the transfer magic) the handle is nulled; on a transferred
envelope `destroy` returns Success but leaves the handle unchanged
(non-null) — the absorber owns the release. -/
theorem destroy_nulls_handle :
    (∀ s : Scratch, s.base % U64 ≠ TRANSFER_MAGIC →
      scratch_destroy (some (HandleObj.scratch s)) = some (none, ERR_SUCCESS)) ∧
    (∀ e : Envelope, e.magic = TRANSFER_MAGIC →
      scratch_destroy (some (HandleObj.envelope e)) =
        some (some (HandleObj.envelope e), ERR_SUCCESS)) := by
  constructor
  · intro s hs
    simp only [scratch_destroy, firstWord]
    rw [if_neg hs]
  · intro e he
    simp only [scratch_destroy, firstWord]
    rw [if_pos he]

/-- Witness for C9 (amended): destroying the demo scratch allocator nulls
the handle; destroying the transferred envelope leaves it alone. -/
theorem destroy_nulls_handle_witness :
    scratch_destroy (some (HandleObj.scratch demoScratch)) =
      some (none, ERR_SUCCESS) ∧
    scratch_destroy (some (HandleObj.envelope c9Env)) =
      some (some (HandleObj.envelope c9Env), ERR_SUCCESS) :=
  ⟨destroy_nulls_handle.1 demoScratch (by decide),
   destroy_nulls_handle.2 c9Env rfl⟩

/-! Claim C10: `absorb` when the consumer's allocation fails. -/

/-- C10: for an envelope bearing the transfer magic, when allocating its
`data_size` bytes from the consumer fails (null, consumer unchanged),
`absorb` returns null but still invokes `destroy_fn` exactly once on the
envelope, losing the payload; the consumer's bump cursor is unchanged. -/
theorem absorb_alloc_failure (C : Scratch) (env : Envelope)
    (hm : env.magic = TRANSFER_MAGIC)
    (halloc : scratch_alloc C env.data_size env.alignment = some (none, C)) :
    scratch_absorb C env = some (none, C, env, 1) := by
  simp only [scratch_absorb, hm]
  rw [if_neg (by simp)]
  rw [halloc]

/-- Witness for C10: absorbing an envelope whose 2048-byte payload exceeds
the demo consumer's free capacity destroys the envelope and returns null,
leaving the consumer's cursor at 0. -/
theorem absorb_alloc_failure_witness :
    scratch_absorb demoScratch
        { magic := TRANSFER_MAGIC, data_size := 2048, alignment := 1,
          payload := [] } =
      some (none, demoScratch,
            { magic := TRANSFER_MAGIC, data_size := 2048, alignment := 1,
              payload := [] }, 1) :=
  absorb_alloc_failure demoScratch
    { magic := TRANSFER_MAGIC, data_size := 2048, alignment := 1,
      payload := [] } rfl rfl

/-! Claim C8: pool creation initializes the free-slot ring. -/

theorem ring_fill_spec (base osize : Nat) (c : Nat) :
    ∀ (l : List Nat), c ≤ l.length →
      (((List.range c).foldl (fun rb i => rb.set i (base + osize * i)) l).length
          = l.length) ∧
      (∀ i, i < c →
        ((List.range c).foldl (fun rb i => rb.set i (base + osize * i)) l).getD
            i 0 = base + osize * i) := by
  induction c with
  | zero =>
    intro l _
    simp
  | succ n ih =>
    intro l hl
    rw [List.range_succ, List.foldl_append]
    simp only [List.foldl_cons, List.foldl_nil]
    obtain ⟨ihlen, ihget⟩ := ih l (by omega)
    refine ⟨by rw [List.length_set, ihlen], ?_⟩
    intro i hi
    by_cases hin : i = n
    · subst hin
      exact getD_set_eq (by rw [ihlen]; omega) _
    · rw [getD_set_ne (by omega) _]
      exact ihget i (by omega)

/-- C8: after a successful pool `create(object_size, object_count,
alignment)`, the ring buffer has `object_count + 1` entries, its first
`object_count` entries are the distinct slot addresses `base + i*object_size`
lying within `[base, base + object_size*object_count)` (every slot address
appears), and `head = tail = 0` with `size = object_count` (the pool starts
full of free slots). -/
theorem pool_create_ring (object_size object_count alignment mmap_addr : Nat)
    (p : PoolAllocator)
    (h : pool_create object_size object_count alignment mmap_addr = some p) :
    p.ring_buffer.length = object_count + 1 ∧
    (∀ i, i < object_count →
       p.ring_buffer.getD i 0 = p.base + object_size * i) ∧
    (∀ i j, i < object_count → j < object_count →
       p.ring_buffer.getD i 0 = p.ring_buffer.getD j 0 → i = j) ∧
    (∀ i, i < object_count →
       p.base ≤ p.ring_buffer.getD i 0 ∧
       p.ring_buffer.getD i 0 < p.base + object_size * object_count) ∧
    p.head = 0 ∧ p.tail = 0 ∧ p.size = object_count := by
  simp only [pool_create] at h
  split at h
  · exact absurd h (by simp)
  rename_i hosz
  split at h
  · exact absurd h (by simp)
  rename_i hocnt
  split at h
  · exact absurd h (by simp)
  split at h
  · exact absurd h (by simp)
  split at h
  · exact absurd h (by simp)
  simp only [Option.some.injEq] at h
  subst h
  obtain ⟨hlen, hget⟩ :=
    ring_fill_spec (alignUp (mmap_addr + METADATA_SIZE) alignment + POOL_HEADER)
      object_size object_count (List.replicate (object_count + 1) 0)
      (by simp)
  have hlen' : (List.replicate (object_count + 1) (0 : Nat)).length =
      object_count + 1 := by simp
  refine ⟨by rw [hlen, hlen'], ?_, ?_, ?_, rfl, rfl, rfl⟩
  · intro i hi
    exact hget i hi
  · intro i j hi hj hij
    rw [hget i hi, hget j hj] at hij
    have : object_size * i = object_size * j := by omega
    exact Nat.eq_of_mul_eq_mul_left (by omega) this
  · intro i hi
    rw [hget i hi]
    constructor
    · dsimp only
      omega
    · dsimp only
      have h1 : object_size * (i + 1) ≤ object_size * object_count :=
        Nat.mul_le_mul_left _ (by omega)
      have h2 : object_size * (i + 1) = object_size * i + object_size := by ring
      omega

/-- A pool of four 32-byte slots at alignment 8 (mapping at 4096). -/
def demoPool : PoolAllocator :=
  (pool_create 32 4 8 4096).getD
    { base := 0, capacity := 0, size := 0, ring_buffer := [], head := 0,
      tail := 0 }

/-- Witness for C8: the demo pool's ring holds the four slot addresses
4192, 4224, 4256, 4288 with the sentinel entry spare. -/
theorem pool_create_ring_witness :
    demoPool.ring_buffer.length = 4 + 1 ∧
    (∀ i, i < 4 → demoPool.ring_buffer.getD i 0 = demoPool.base + 32 * i) ∧
    (∀ i j, i < 4 → j < 4 →
       demoPool.ring_buffer.getD i 0 = demoPool.ring_buffer.getD j 0 → i = j) ∧
    (∀ i, i < 4 →
       demoPool.base ≤ demoPool.ring_buffer.getD i 0 ∧
       demoPool.ring_buffer.getD i 0 < demoPool.base + 32 * 4) ∧
    demoPool.head = 0 ∧ demoPool.tail = 0 ∧ demoPool.size = 4 :=
  pool_create_ring 32 4 8 4096 demoPool rfl

/-! Claim C3: transfer/absorb round-trip. -/

/-- C3: for a producer with capacity at least `n`, a byte array `B` of
length `n ≥ 1` and a power-of-two alignment, if allocating `n` bytes at
that alignment from the consumer succeeds, then
`absorb(C, transfer(P, B, n, a), destroy_P)` returns the consumer's new
pointer `q`, the first `n` bytes at `q` equal `B`, the envelope's magic is
cleared, and `destroy_P` is invoked exactly once on the envelope. -/
theorem transfer_absorb_roundtrip (P C C' : Scratch) (B : List Nat)
    (n a q : Nat) (hB : B.length = n) (hn : 1 ≤ n) (hcap : n ≤ P.capacity)
    (ha : is_power_of_two a = true)
    (halloc : scratch_alloc C n a = some (some q, C')) :
    scratch_transfer P B n a =
      some { magic := TRANSFER_MAGIC, data_size := n, alignment := a,
             payload := B } ∧
    ∃ C2 env2,
      scratch_absorb C
          { magic := TRANSFER_MAGIC, data_size := n, alignment := a,
            payload := B } =
        some (some q, C2, env2, 1) ∧
      (∀ i, i < n → C2.mem (q + i) = B.getD i 0) ∧
      env2.magic = 0 ∧ C2.allocated = C'.allocated := by
  constructor
  · simp only [scratch_transfer]
    rw [if_neg (by simp [hn, hcap]), if_neg (by simp [ha])]
    rw [← hB, List.take_length]
  · refine ⟨{ C' with
                mem := fun addr =>
                  if q ≤ addr ∧ addr < q + n then B.getD (addr - q) 0
                  else C'.mem addr },
            { magic := 0, data_size := n, alignment := a, payload := B },
            ?_, ?_, rfl, rfl⟩
    · simp only [scratch_absorb]
      rw [if_neg (by simp)]
      rw [halloc]
    · intro i hi
      dsimp only
      rw [if_pos (by omega)]
      rw [Nat.add_sub_cancel_left]

/-- The demo consumer after allocating 4 bytes at alignment 4. -/
def c3Consumed : Scratch :=
  ((scratch_alloc demoScratch 4 4).getD (none, junkScratch)).snd

/-- Witness for C3: transferring the four bytes DE AD BE EF through an
envelope into the demo consumer reproduces them at the returned pointer. -/
theorem transfer_absorb_roundtrip_witness :
    scratch_transfer demoScratch [222, 173, 190, 239] 4 4 =
      some { magic := TRANSFER_MAGIC, data_size := 4, alignment := 4,
             payload := [222, 173, 190, 239] } ∧
    ∃ C2 env2,
      scratch_absorb demoScratch
          { magic := TRANSFER_MAGIC, data_size := 4, alignment := 4,
            payload := [222, 173, 190, 239] } =
        some (some 4176, C2, env2, 1) ∧
      (∀ i, i < 4 → C2.mem (4176 + i) = [222, 173, 190, 239].getD i 0) ∧
      env2.magic = 0 ∧ C2.allocated = c3Consumed.allocated :=
  transfer_absorb_roundtrip demoScratch demoScratch c3Consumed
    [222, 173, 190, 239] 4 4 4176 rfl (by decide) (by decide) (by decide) rfl

/-! Claim C2: alignment and cursor behaviour of `alloc`. -/

theorem pow_le_max_imp_le64 {al k : Nat} (ha : al = 2 ^ k)
    (hmax : al ≤ MAX_ALIGNMENT) : k ≤ 64 := by
  by_contra hk
  have h1 : 2 ^ 65 ≤ 2 ^ k := Nat.pow_le_pow_right (by omega) (by omega)
  have h2 : (2 : Nat) ^ 65 = 36893488147419103232 := by norm_num
  have h3 : MAX_ALIGNMENT = 2048 := rfl
  omega

/-- Closed form of scratch `alloc` under the struct invariant and in the
absence of machine-word wrap-around. -/
theorem scratch_alloc_normal (s : Scratch) (sz al k : Nat)
    (ha : al = 2 ^ k) (hmin : MIN_ALIGNMENT ≤ al) (hmax : al ≤ MAX_ALIGNMENT)
    (hsz : 0 < sz) (hszw : sz + al ≤ U64)
    (h1 : s.allocated ≤ s.capacity) (h2 : s.capacity < U64)
    (h3 : s.base + s.capacity + al ≤ U64) :
    scratch_alloc s sz al =
      (if s.capacity - s.allocated <
          sz + (roundUp (s.base + s.allocated) al - (s.base + s.allocated))
       then some (none, s)
       else some (some (roundUp (s.base + s.allocated) al),
             { s with allocated :=
                 s.allocated +
                   (sz + (roundUp (s.base + s.allocated) al -
                     (s.base + s.allocated))) })) := by
  have hU := U64_eq
  have hk : k ≤ 64 := pow_le_max_imp_le64 ha hmax
  have h2k : 0 < 2 ^ k := Nat.two_pow_pos k
  have hal : 0 < al := by omega
  have e1 : uadd s.base s.allocated = s.base + s.allocated :=
    uadd_eq_add (by omega)
  have e2 : alignUp (s.base + s.allocated) al =
      roundUp (s.base + s.allocated) al := by
    rw [ha]
    exact alignUp_eq_roundUp _ k hk (by rw [← ha]; omega)
  have hge := roundUp_ge (s.base + s.allocated) al hal
  have hlt := roundUp_lt_add (s.base + s.allocated) al hal
  have e3 : usub (roundUp (s.base + s.allocated) al) (s.base + s.allocated) =
      roundUp (s.base + s.allocated) al - (s.base + s.allocated) :=
    usub_eq_sub hge (by omega)
  have e4 : uadd sz (roundUp (s.base + s.allocated) al -
      (s.base + s.allocated)) =
      sz + (roundUp (s.base + s.allocated) al - (s.base + s.allocated)) :=
    uadd_eq_add (by omega)
  have e5 : usub s.capacity s.allocated = s.capacity - s.allocated :=
    usub_eq_sub h1 h2
  simp only [scratch_alloc, if_neg (by omega : ¬ sz = 0),
    if_neg (by simp [ha, is_power_of_two_pow] :
      ¬ ¬ is_power_of_two al = true),
    if_neg (by simp [hmin, hmax] :
      ¬ ¬ (MIN_ALIGNMENT ≤ al ∧ al ≤ MAX_ALIGNMENT)),
    e1, e2, e3, e4, e5]
  by_cases hg : s.capacity - s.allocated <
      sz + (roundUp (s.base + s.allocated) al - (s.base + s.allocated))
  · rw [if_pos hg, if_pos hg]
  · rw [if_neg hg, if_neg hg]
    have e6 : uadd s.allocated
        (sz + (roundUp (s.base + s.allocated) al - (s.base + s.allocated))) =
        s.allocated +
          (sz + (roundUp (s.base + s.allocated) al - (s.base + s.allocated))) :=
      uadd_eq_add (by omega)
    rw [e6]

/-- Closed form of stack `alloc` under the struct invariant and in the
absence of machine-word wrap-around: as scratch `alloc`, except that in
lazy mode the total allocation must additionally be committed. -/
theorem stack_alloc_normal (st : StackState) (sz al k : Nat)
    (ha : al = 2 ^ k) (hmin : MIN_ALIGNMENT ≤ al) (hmax : al ≤ MAX_ALIGNMENT)
    (hsz : 0 < sz) (hszw : sz + al ≤ U64)
    (h1 : st.allocated ≤ st.capacity) (h2 : st.capacity < U64)
    (h3 : st.base + st.capacity + al ≤ U64) :
    stack_alloc st sz al =
      (if st.capacity - st.allocated <
          sz + (roundUp (st.base + st.allocated) al - (st.base + st.allocated))
       then some (none, st)
       else if st.alloc_mode = LAZY then
         match anvil_memory_commit st.md
             (sz + (roundUp (st.base + st.allocated) al -
               (st.base + st.allocated))) true with
         | none => none
         | some (md', e) =>
             if e ≠ ERR_SUCCESS then some (none, st)
             else some (some (roundUp (st.base + st.allocated) al),
                   { st with
                       allocated :=
                         st.allocated +
                           (sz + (roundUp (st.base + st.allocated) al -
                             (st.base + st.allocated))),
                       md := md' })
       else some (some (roundUp (st.base + st.allocated) al),
             { st with allocated :=
                 st.allocated +
                   (sz + (roundUp (st.base + st.allocated) al -
                     (st.base + st.allocated))) })) := by
  have hU := U64_eq
  have hk : k ≤ 64 := pow_le_max_imp_le64 ha hmax
  have h2k : 0 < 2 ^ k := Nat.two_pow_pos k
  have hal : 0 < al := by omega
  have e1 : uadd st.base st.allocated = st.base + st.allocated :=
    uadd_eq_add (by omega)
  have e2 : alignUp (st.base + st.allocated) al =
      roundUp (st.base + st.allocated) al := by
    rw [ha]
    exact alignUp_eq_roundUp _ k hk (by rw [← ha]; omega)
  have hge := roundUp_ge (st.base + st.allocated) al hal
  have hlt := roundUp_lt_add (st.base + st.allocated) al hal
  have e3 : usub (roundUp (st.base + st.allocated) al) (st.base + st.allocated) =
      roundUp (st.base + st.allocated) al - (st.base + st.allocated) :=
    usub_eq_sub hge (by omega)
  have e4 : uadd sz (roundUp (st.base + st.allocated) al -
      (st.base + st.allocated)) =
      sz + (roundUp (st.base + st.allocated) al - (st.base + st.allocated)) :=
    uadd_eq_add (by omega)
  have e5 : usub st.capacity st.allocated = st.capacity - st.allocated :=
    usub_eq_sub h1 h2
  simp only [stack_alloc, if_neg (by omega : ¬ sz = 0),
    if_neg (by simp [ha, is_power_of_two_pow] :
      ¬ ¬ is_power_of_two al = true),
    if_neg (by simp [hmin, hmax] :
      ¬ ¬ (MIN_ALIGNMENT ≤ al ∧ al ≤ MAX_ALIGNMENT)),
    e1, e2, e3, e4, e5]
  by_cases hg : st.capacity - st.allocated <
      sz + (roundUp (st.base + st.allocated) al - (st.base + st.allocated))
  · rw [if_pos hg, if_pos hg]
  · rw [if_neg hg, if_neg hg]
    have e6 : uadd st.allocated
        (sz + (roundUp (st.base + st.allocated) al -
          (st.base + st.allocated))) =
        st.allocated +
          (sz + (roundUp (st.base + st.allocated) al -
            (st.base + st.allocated))) :=
      uadd_eq_add (by omega)
    rw [e6]

/-- C2 (amended): for a scratch or stack allocator in a valid state (cursor
within capacity, no machine-word wrap-around), `alloc(A, s, a)` with `s > 0`
and a power-of-two alignment `a` in range computes the aligned address
`p = roundUp (base + allocated) a` with padding `offset = p - (base +
allocated)`; if `allocated + offset + s > capacity` it returns null leaving
`allocated` unchanged; otherwise it advances `allocated` by exactly
`offset + s` and returns `p` — except that a lazy stack allocator must
additionally commit `s + offset` bytes, and a commit failure also returns
null with `allocated` unchanged; every returned `p` satisfies `p mod a = 0`. -/
theorem alloc_aligned_or_null (s : Scratch) (st : StackState) (sz al k : Nat)
    (ha : al = 2 ^ k) (hmin : MIN_ALIGNMENT ≤ al) (hmax : al ≤ MAX_ALIGNMENT)
    (hsz : 0 < sz) (hszw : sz + al ≤ U64)
    (hs1 : s.allocated ≤ s.capacity) (hs2 : s.capacity < U64)
    (hs3 : s.base + s.capacity + al ≤ U64)
    (ht1 : st.allocated ≤ st.capacity) (ht2 : st.capacity < U64)
    (ht3 : st.base + st.capacity + al ≤ U64) :
    (roundUp (s.base + s.allocated) al % al = 0 ∧
      (s.capacity <
          s.allocated +
            (roundUp (s.base + s.allocated) al - (s.base + s.allocated)) + sz →
        scratch_alloc s sz al = some (none, s)) ∧
      (s.allocated +
          (roundUp (s.base + s.allocated) al - (s.base + s.allocated)) + sz ≤
            s.capacity →
        scratch_alloc s sz al =
          some (some (roundUp (s.base + s.allocated) al),
                { s with
                    allocated :=
                      s.allocated +
                        (roundUp (s.base + s.allocated) al -
                          (s.base + s.allocated)) + sz }))) ∧
    (roundUp (st.base + st.allocated) al % al = 0 ∧
      (st.capacity <
          st.allocated +
            (roundUp (st.base + st.allocated) al - (st.base + st.allocated)) +
              sz →
        stack_alloc st sz al = some (none, st)) ∧
      (st.allocated +
          (roundUp (st.base + st.allocated) al - (st.base + st.allocated)) +
            sz ≤ st.capacity →
        (st.alloc_mode ≠ LAZY →
          stack_alloc st sz al =
            some (some (roundUp (st.base + st.allocated) al),
                  { st with
                      allocated :=
                        st.allocated +
                          (roundUp (st.base + st.allocated) al -
                            (st.base + st.allocated)) + sz })) ∧
        (st.alloc_mode = LAZY →
          ∀ md' e,
            anvil_memory_commit st.md
                (sz + (roundUp (st.base + st.allocated) al -
                  (st.base + st.allocated))) true = some (md', e) →
            (e ≠ ERR_SUCCESS → stack_alloc st sz al = some (none, st)) ∧
            (e = ERR_SUCCESS →
              stack_alloc st sz al =
                some (some (roundUp (st.base + st.allocated) al),
                      { st with
                          allocated :=
                            st.allocated +
                              (roundUp (st.base + st.allocated) al -
                                (st.base + st.allocated)) + sz,
                          md := md' }))))) := by
  have hsnorm := scratch_alloc_normal s sz al k ha hmin hmax hsz hszw hs1 hs2 hs3
  have htnorm := stack_alloc_normal st sz al k ha hmin hmax hsz hszw ht1 ht2 ht3
  constructor
  · refine ⟨by rw [ha]; exact roundUp_mod _ _, ?_, ?_⟩
    · intro hover
      rw [hsnorm, if_pos (by omega)]
    · intro hfit
      rw [hsnorm, if_neg (by omega)]
      have hc : s.allocated +
          (sz + (roundUp (s.base + s.allocated) al - (s.base + s.allocated))) =
          s.allocated +
            (roundUp (s.base + s.allocated) al - (s.base + s.allocated)) + sz := by
        ring
      rw [hc]
  · refine ⟨by rw [ha]; exact roundUp_mod _ _, ?_, ?_⟩
    · intro hover
      rw [htnorm, if_pos (by omega)]
    · intro hfit
      have hc : st.allocated +
          (sz + (roundUp (st.base + st.allocated) al -
            (st.base + st.allocated))) =
          st.allocated +
            (roundUp (st.base + st.allocated) al - (st.base + st.allocated)) +
              sz := by
        ring
      constructor
      · intro hmode
        rw [htnorm, if_neg (by omega), if_neg hmode, hc]
      · intro hmode md' e hcommit
        constructor
        · intro herr
          rw [htnorm, if_neg (by omega), if_pos hmode, hcommit]
          simp only [if_pos herr]
        · intro herr
          rw [htnorm, if_neg (by omega), if_pos hmode, hcommit, hc]
          simp only [herr]
          rw [if_neg (by simp)]

/-- Witness for C2: allocating 17 bytes at alignment 16 from the fresh demo
scratch and (eager) demo stack allocators returns their aligned bases and
advances each cursor to 17. -/
theorem alloc_aligned_or_null_witness :
    scratch_alloc demoScratch 17 16 =
      some (some 4176, { demoScratch with allocated := 17 }) ∧
    stack_alloc demoStack 17 16 =
      some (some 4688, { demoStack with allocated := 17 }) := by
  have h := alloc_aligned_or_null demoScratch demoStack 17 16 4 rfl
    (by decide) (by decide) (by decide) (by decide) (by decide) (by decide)
    (by decide) (by decide) (by decide) (by decide)
  exact ⟨h.1.2.2 (by decide), (h.2.2.2 (by decide)).1 (by decide)⟩

/-- C2 counterexample: `c2Lazy2` is a reachable lazy stack allocator whose
third 1-byte allocation satisfies `allocated + offset + size ≤ capacity`
(2 + 0 + 1 ≤ 8192), yet `alloc` returns null with the cursor unchanged,
because the per-allocation commit has exhausted the reservation — refuting
the claim's unconditional "otherwise advances `allocated` and returns `p`"
for lazy stack allocators. -/
theorem alloc_lazy_commit_counterexample :
    StackReach c2Lazy2 ∧
    c2Lazy2.allocated +
        (roundUp (c2Lazy2.base + c2Lazy2.allocated) 1 -
          (c2Lazy2.base + c2Lazy2.allocated)) + 1 ≤ c2Lazy2.capacity ∧
    stack_alloc c2Lazy2 1 1 = some (none, c2Lazy2) := by
  refine ⟨?_, by decide, rfl⟩
  exact StackReach.alloced
    (StackReach.alloced
      (@StackReach.created 8192 1 LAZY 4096 4096 demoLazy0 (by decide) rfl)
      (rfl : stack_alloc demoLazy0 1 1 =
        some (((stack_alloc demoLazy0 1 1).getD (none, junkStack)).fst,
              c2Lazy1)))
    (rfl : stack_alloc c2Lazy1 1 1 =
      some (((stack_alloc c2Lazy1 1 1).getD (none, junkStack)).fst, c2Lazy2))

/-! Claim C1: `record` and the checkpoint stack. -/

/-- Applying `record` `n` times, insisting every call return success. -/
def recN : Nat → StackState → Option StackState
  | 0, st => some st
  | n + 1, st =>
      match stack_record st with
      | none => none
      | some (st', e) => if e = ERR_SUCCESS then recN n st' else none

theorem recN_succeeds : ∀ (n : Nat) (st : StackState), st.base ≠ 0 →
    st.stack_depth + n ≤ MAX_STACK_DEPTH - 1 →
    ∃ st', recN n st = some st' ∧
      st'.stack_depth = st.stack_depth + n ∧ st'.base = st.base := by
  have hM : MAX_STACK_DEPTH = 64 := rfl
  intro n
  induction n with
  | zero =>
    intro st hb _
    exact ⟨st, rfl, rfl, rfl⟩
  | succ m ih =>
    intro st hb hd
    have hrec : stack_record st =
        some ({ st with stack := st.stack.set st.stack_depth st.allocated,
                        stack_depth := st.stack_depth + 1 }, ERR_SUCCESS) := by
      simp only [stack_record]
      rw [if_neg hb, if_neg (by omega), if_neg (by omega)]
    obtain ⟨st', h1, h2, h3⟩ := ih
      { st with stack := st.stack.set st.stack_depth st.allocated,
                stack_depth := st.stack_depth + 1 }
      hb (by dsimp only; omega)
    refine ⟨st', ?_, by dsimp only at h2; omega, h3⟩
    simp only [recN, hrec]
    simpa using h1

/-- C1 (amended): `record` pushes the cursor and returns Success while
`stack_depth < MAX_STACK_DEPTH - 1`; at `stack_depth = MAX_STACK_DEPTH - 1`
it returns the recoverable `StackOverflow` without aborting, leaving
`allocated`, `stack_depth` and the saved checkpoints unchanged; hence from
an empty checkpoint stack the first 63 consecutive `record` calls succeed
and the 64th — not the 65th — returns `StackOverflow`. -/
theorem record_checkpoint_spec (st : StackState) (hb : st.base ≠ 0) :
    (st.stack_depth < MAX_STACK_DEPTH - 1 →
      stack_record st =
        some ({ st with stack := st.stack.set st.stack_depth st.allocated,
                        stack_depth := st.stack_depth + 1 }, ERR_SUCCESS)) ∧
    (st.stack_depth = MAX_STACK_DEPTH - 1 →
      stack_record st = some (st, ERR_STACK_OVERFLOW)) ∧
    (st.stack_depth = 0 →
      ∃ st63, recN (MAX_STACK_DEPTH - 1) st = some st63 ∧
        st63.stack_depth = MAX_STACK_DEPTH - 1 ∧
        stack_record st63 = some (st63, ERR_STACK_OVERFLOW)) := by
  have hM : MAX_STACK_DEPTH = 64 := rfl
  refine ⟨?_, ?_, ?_⟩
  · intro hlt
    simp only [stack_record]
    rw [if_neg hb, if_neg (by omega), if_neg (by omega)]
  · intro heq
    simp only [stack_record]
    rw [if_neg hb, if_pos heq]
  · intro h0
    obtain ⟨st63, h1, h2, h3⟩ :=
      recN_succeeds (MAX_STACK_DEPTH - 1) st hb (by omega)
    refine ⟨st63, h1, by omega, ?_⟩
    simp only [stack_record]
    rw [if_neg (h3 ▸ hb), if_pos (by omega)]

/-- Witness for C1: from the fresh demo stack allocator, 63 records succeed
and the 64th returns `StackOverflow`. -/
theorem record_checkpoint_spec_witness :
    ∃ st63, recN (MAX_STACK_DEPTH - 1) demoStack = some st63 ∧
      st63.stack_depth = MAX_STACK_DEPTH - 1 ∧
      stack_record st63 = some (st63, ERR_STACK_OVERFLOW) :=
  (record_checkpoint_spec demoStack (by decide)).2.2 rfl

/-- C1 counterexample: on the fresh demo stack allocator the 64th
consecutive `record` (after 63 successful ones) already returns
`StackOverflow` — not Success — refuting the claim that overflow first
occurs on the 65th consecutive `record`. -/
theorem record_64th_counterexample :
    (recN 63 demoStack).map (fun s => s.stack_depth) = some 63 ∧
    ((recN 63 demoStack).bind stack_record).map Prod.snd =
      some ERR_STACK_OVERFLOW ∧
    ERR_STACK_OVERFLOW ≠ ERR_SUCCESS :=
  ⟨by decide, by decide, by decide⟩

/-! Claim C6: `unwind` on reachable states. -/

/-- C6: in every reachable stack-allocator state with `stack_depth > 0`
(reachable states in fact satisfy `stack_depth ≤ MAX_STACK_DEPTH - 1`),
`unwind` never aborts: it pops the top saved checkpoint into `allocated`,
decrements `stack_depth`, and returns Success; only `unwind` at
`stack_depth = 0` violates a fatal invariant. -/
theorem unwind_no_abort (st : StackState) (hr : StackReach st)
    (hd : 0 < st.stack_depth) :
    stack_unwind st =
      some ({ st with allocated := st.stack.getD (st.stack_depth - 1) 0,
                      stack_depth := st.stack_depth - 1 }, ERR_SUCCESS) := by
  obtain ⟨h1, h2, h3⟩ := stack_reach_inv hr
  have hM : MAX_STACK_DEPTH = 64 := rfl
  simp only [stack_unwind]
  rw [if_neg (by omega), if_neg (by simp only [not_not]; omega)]

/-- The demo stack allocator after one `record` (depth 1). -/
def c6St : StackState := ((stack_record demoStack).getD (junkStack, 0)).fst

/-- Witness for C6: unwinding the demo stack allocator at depth 1 pops the
saved cursor and returns Success. -/
theorem unwind_no_abort_witness :
    stack_unwind c6St =
      some ({ c6St with allocated := c6St.stack.getD (c6St.stack_depth - 1) 0,
                        stack_depth := c6St.stack_depth - 1 }, ERR_SUCCESS) :=
  unwind_no_abort c6St
    (StackReach.recorded
      (@StackReach.created 256 8 EAGER 4096 4096 demoStack (by decide) rfl)
      (rfl : stack_record demoStack =
        some (c6St, ((stack_record demoStack).getD (junkStack, 0)).snd)))
    (by decide)

/-! Claim C5: the LIFO record/unwind discipline. -/

theorem stack_record_success {st st1 : StackState}
    (h : stack_record st = some (st1, ERR_SUCCESS)) :
    st1 = { st with stack := st.stack.set st.stack_depth st.allocated,
                    stack_depth := st.stack_depth + 1 } ∧
    st.stack_depth < MAX_STACK_DEPTH - 1 := by
  have hM : MAX_STACK_DEPTH = 64 := rfl
  simp only [stack_record] at h
  split at h
  · exact absurd h (by simp)
  split at h
  · simp only [Option.some.injEq, Prod.mk.injEq] at h
    exact absurd h.2 (by decide)
  split at h
  · exact absurd h (by simp)
  rename_i hne hlt
  simp only [Option.some.injEq, Prod.mk.injEq] at h
  exact ⟨h.1.symm, by omega⟩

theorem stack_unwind_shape {st st1 : StackState} {e : Error}
    (h : stack_unwind st = some (st1, e)) :
    st1 = { st with allocated := st.stack.getD (st.stack_depth - 1) 0,
                    stack_depth := st.stack_depth - 1 } ∧ e = ERR_SUCCESS := by
  simp only [stack_unwind] at h
  split at h
  · exact absurd h (by simp)
  split at h
  · exact absurd h (by simp)
  simp only [Option.some.injEq, Prod.mk.injEq] at h
  exact ⟨h.1.symm, h.2.symm⟩

theorem execP_frame (p : SProg) : ∀ (st st' : StackState) (ok : Bool),
    execP p st = some (st', ok) → ok = true →
    st'.stack_depth = st.stack_depth ∧ st'.stack.length = st.stack.length ∧
    ∀ i, i < st.stack_depth → st'.stack.getD i 0 = st.stack.getD i 0 := by
  induction p with
  | nil =>
    intro st st' ok h _
    simp only [execP, Option.some.injEq, Prod.mk.injEq] at h
    obtain ⟨hs, -⟩ := h
    subst hs
    exact ⟨rfl, rfl, fun i _ => rfl⟩
  | opAlloc sz al rest ih =>
    intro st st' ok h hok
    simp only [execP] at h
    split at h
    · exact absurd h (by simp)
    rename_i r st1 halc
    obtain ⟨f1, f2, -, -⟩ := stack_alloc_frame halc
    obtain ⟨g1, g2, g3⟩ := ih st1 st' ok h hok
    refine ⟨by omega, by rw [g2, f2], ?_⟩
    intro i hi
    rw [g3 i (by omega), f2]
  | scope inner rest ih_inner ih_rest =>
    intro st st' ok h hok
    simp only [execP] at h
    split at h
    · exact absurd h (by simp)
    rename_i st1 e1 hrec
    split at h
    · exact absurd h (by simp)
    rename_i st2 ok2 hin
    split at h
    · exact absurd h (by simp)
    rename_i st3 e3 hun
    split at h
    · exact absurd h (by simp)
    rename_i st4 ok4 hrest
    simp only [Option.some.injEq, Prod.mk.injEq] at h
    obtain ⟨hs, hko⟩ := h
    subst hs
    rw [← hko] at hok
    simp only [Bool.and_eq_true, beq_iff_eq] at hok
    obtain ⟨⟨he1, hok2⟩, hok4⟩ := hok
    subst he1
    obtain ⟨hst1, hdlt⟩ := stack_record_success hrec
    obtain ⟨hst3, -⟩ := stack_unwind_shape hun
    obtain ⟨p1, p2, p3⟩ := ih_inner st1 st2 ok2 hin hok2
    obtain ⟨q1, q2, q3⟩ := ih_rest st3 st4 ok4 hrest hok4
    have hd1 : st1.stack_depth = st.stack_depth + 1 := by
      rw [hst1]
    have hl1 : st1.stack.length = st.stack.length := by
      rw [hst1]
      exact List.length_set st.stack _ _
    have hd3 : st3.stack_depth = st2.stack_depth - 1 := by
      rw [hst3]
    have hl3 : st3.stack.length = st2.stack.length := by
      rw [hst3]
    refine ⟨by omega, by omega, ?_⟩
    intro i hi
    have hent3 : st3.stack.getD i 0 = st2.stack.getD i 0 := by
      rw [hst3]
    have hent1 : st1.stack.getD i 0 = st.stack.getD i 0 := by
      rw [hst1]
      dsimp only
      exact getD_set_ne (by omega) _
    rw [q3 i (by omega), hent3, p3 i (by omega), hent1]

/-- C5: for every stack allocator and every well-nested sequence of matched
record/unwind pairs (arbitrary alloc calls in between, no intervening
reset) in which every `record` returned Success, the value of `allocated`
after the outermost `unwind` equals its value just before the matching
outermost `record`. -/
theorem record_unwind_lifo (inner : SProg) (st st' : StackState)
    (hlen : st.stack.length = MAX_STACK_DEPTH)
    (h : execP (SProg.scope inner SProg.nil) st = some (st', true)) :
    st'.allocated = st.allocated := by
  have hM : MAX_STACK_DEPTH = 64 := rfl
  simp only [execP] at h
  split at h
  · exact absurd h (by simp)
  rename_i st1 e1 hrec
  split at h
  · exact absurd h (by simp)
  rename_i st2 ok2 hin
  split at h
  · exact absurd h (by simp)
  rename_i st3 e3 hun
  simp only [Option.some.injEq, Prod.mk.injEq] at h
  obtain ⟨hs, hko⟩ := h
  subst hs
  simp only [Bool.and_true, Bool.and_eq_true, beq_iff_eq] at hko
  obtain ⟨he1, hok2⟩ := hko
  subst he1
  obtain ⟨hst1, hdlt⟩ := stack_record_success hrec
  obtain ⟨hst3, -⟩ := stack_unwind_shape hun
  obtain ⟨p1, p2, p3⟩ := execP_frame inner st1 st2 ok2 hin hok2
  have hd1 : st1.stack_depth = st.stack_depth + 1 := by
    rw [hst1]
  rw [hst3]
  dsimp only
  rw [p1, hd1]
  simp only [Nat.add_sub_cancel]
  rw [p3 st.stack_depth (by omega), hst1]
  dsimp only
  exact getD_set_eq (by rw [hlen]; omega) _

/-- One record/unwind scope containing a single 8-byte allocation. -/
def c5Prog : SProg := SProg.scope (SProg.opAlloc 8 1 SProg.nil) SProg.nil

/-- Result state of running `c5Prog` on the demo stack allocator. -/
def c5Res : StackState := ((execP c5Prog demoStack).getD (junkStack, false)).fst

/-- Witness for C5: running record; alloc 8; unwind on the fresh demo stack
allocator restores the cursor to its initial value 0. -/
theorem record_unwind_lifo_witness :
    demoStack.stack.length = MAX_STACK_DEPTH ∧
    c5Res.allocated = demoStack.allocated :=
  ⟨by decide,
   record_unwind_lifo (SProg.opAlloc 8 1 SProg.nil) demoStack c5Res
     (by decide) rfl⟩

/-! Claim C4: `reset` semantics. -/

/-- C4 (amended): `reset` sets `allocated = 0` (and `stack_depth = 0` for a
stack allocator) and returns Success; the scratch allocator's reset zeroes
`[base, base + allocated)`, so that afterwards every byte of its user
region — in particular every byte previously issued — reads as zero; the
C++ stack allocator's reset (memset commented out) leaves the user-region
bytes untouched. -/
theorem reset_spec :
    (∀ s : Scratch, ScratchReach s →
      ∃ s', scratch_reset s = some (s', ERR_SUCCESS) ∧ s'.allocated = 0 ∧
        ∀ i, i < s.capacity → s'.mem (s.base + i) = 0) ∧
    (∀ st : StackState, st.base ≠ 0 →
      stack_reset st =
        some ({ st with allocated := 0, stack_depth := 0 }, ERR_SUCCESS)) := by
  constructor
  · intro s hr
    obtain ⟨h1, h2, h3, h4⟩ := scratch_reach_inv hr
    refine ⟨{ s with
                mem := fun addr =>
                  if s.base ≤ addr ∧ addr < s.base + s.allocated then 0
                  else s.mem addr,
                allocated := 0 }, ?_, rfl, ?_⟩
    · simp only [scratch_reset]
      rw [if_neg h1]
    · intro i hi
      dsimp only
      by_cases hlt : i < s.allocated
      · rw [if_pos (by omega)]
      · rw [if_neg (by omega)]
        exact h4 i (by omega) hi
  · intro st hb
    simp only [stack_reset]
    rw [if_neg hb]

/-- Witness for C4: resetting the fresh demo scratch allocator zeroes its
region and succeeds, and resetting the demo stack allocator clears the
cursor and the checkpoint depth. -/
theorem reset_spec_witness :
    (∃ s', scratch_reset demoScratch = some (s', ERR_SUCCESS) ∧
      s'.allocated = 0 ∧
      ∀ i, i < demoScratch.capacity → s'.mem (demoScratch.base + i) = 0) ∧
    stack_reset demoStack =
      some ({ demoStack with allocated := 0, stack_depth := 0 },
            ERR_SUCCESS) :=
  ⟨reset_spec.1 demoScratch
    (@ScratchReach.created 1024 16 4096 demoScratch (by decide) rfl),
   reset_spec.2 demoStack (by decide)⟩

/-- The demo stack allocator after a 1-byte allocation (cursor 1). -/
def c4Alloc : StackState :=
  ((stack_alloc demoStack 1 1).getD (none, junkStack)).snd

/-- The same allocator after the client stores the byte 222 through the
issued pointer 4688. -/
def c4State : StackState :=
  { c4Alloc with mem := writeByte c4Alloc.mem 4688 222 }

/-- C4 counterexample: `c4State` is a reachable stack allocator holding the
issued byte 222 at its base address 4688; the C++ stack `reset` returns
Success but the byte still reads 222 afterwards, refuting the claim that
after `reset` every previously issued byte of a stack allocator reads as
zero. -/
theorem stack_reset_no_zero_counterexample :
    StackReach c4State ∧
    (stack_alloc demoStack 1 1).map Prod.fst = some (some 4688) ∧
    (stack_reset c4State).map (fun p => (p.fst.mem 4688, p.snd)) =
      some (222, ERR_SUCCESS) ∧
    (222 : Nat) ≠ 0 := by
  refine ⟨?_, by decide, rfl, by decide⟩
  exact StackReach.written
    (StackReach.alloced
      (@StackReach.created 256 8 EAGER 4096 4096 demoStack (by decide) rfl)
      (rfl : stack_alloc demoStack 1 1 =
        some (((stack_alloc demoStack 1 1).getD (none, junkStack)).fst,
              c4Alloc)))
    (by decide) (by decide)

end Anvil
